import Mathlib

/-!
Verification of the tergar-app-extension meditation-log engine.

The development shallowly embeds the JavaScript of the repository:
JSON values become an inductive type, `storeMeditationLogs` (the record
merger of the content scripts) becomes a function on parse outcomes, the
two background download handlers become functions from the stored state
to the exported artifact, and the bucketing normalizer
(`MeditationLogs.bucket_entries`, referenced by the breaking-changes
note of the repository but not present in the sources) is modelled from
the specification.
-/

namespace Tergar

/-- A JavaScript/JSON value as produced by JSON.parse: null, booleans,
(integer) numbers, strings, arrays and objects with ordered fields. -/
inductive JsonVal : Type where
  | null : JsonVal
  | bool : Bool → JsonVal
  | num : Int → JsonVal
  | str : String → JsonVal
  | arr : List JsonVal → JsonVal
  | obj : List (String × JsonVal) → JsonVal

/-- JS property read on an object: the value of field `k`, or none when
the field is absent (JS would yield undefined) or the value is not an
object. -/
def getField (v : JsonVal) (k : String) : Option JsonVal :=
  match v with
  | .obj fs => fs.lookup k
  | _ => none

/-- A JavaScript exception as thrown by the embedded code: a TypeError
from an illegal property read or method call, or the error JSON.parse
throws on malformed text. -/
inductive JsError : Type where
  | typeError : String → JsError
  | parseError : String → JsError

mutual

/-- JS ToString coercion, as String.prototype.concat applies it to its
argument: null prints as null, booleans and integers print canonically,
arrays join their elements with commas (Array.prototype.toString), and
plain objects print as [object Object]. -/
def jsToString : JsonVal → String
  | .null => "null"
  | .bool true => "true"
  | .bool false => "false"
  | .num n => toString n
  | .str s => s
  | .arr xs => jsJoinElems xs
  | .obj _ => "[object Object]"

/-- Array.prototype.join with the default comma separator: null elements
contribute the empty string. -/
def jsJoinElems : List JsonVal → String
  | [] => ""
  | [.null] => ""
  | [v] => jsToString v
  | .null :: vs => "," ++ jsJoinElems vs
  | v :: vs => jsToString v ++ "," ++ jsJoinElems vs

end

/-- Evaluation of the property read v.length as it occurs in the two
console.log template literals of storeMeditationLogs: it throws a
TypeError when the receiver is null (JSON.parse never yields undefined),
arrays and strings have a numeric length, and every other value yields
undefined (none here) without throwing. -/
def lengthAccess : JsonVal → Except JsError (Option Nat)
  | .null => .error (.typeError "Cannot read properties of null")
  | .arr xs => .ok (some xs.length)
  | .str s => .ok (some s.length)
  | _ => .ok none

/-- v.concat(w) as JavaScript evaluates it: an array receiver spreads an
array argument and appends any non-array argument as a single element
(Array.prototype.concat with no Symbol.isConcatSpreadable overrides); a
string receiver coerces the argument and concatenates
(String.prototype.concat); every other receiver has no concat method,
so the call throws a TypeError. -/
def jsConcat : JsonVal → JsonVal → Except JsError JsonVal
  | .arr xs, .arr ys => .ok (.arr (xs ++ ys))
  | .arr xs, w => .ok (.arr (xs ++ [w]))
  | .str s, w => .ok (.str (s ++ jsToString w))
  | _, _ => .error (.typeError "concat is not a function")

/-- Shallow embedding of storeMeditationLogs from the content scripts
(the Record Merger). The two arguments are the outcomes of
JSON.parse(window.localStorage.getItem(..)) for the regular and the mala
meditation logs: an absent key makes getItem return null, which
JSON.parse coerces to the text "null" and parses to the null value,
while malformed text makes JSON.parse throw, embedded as an error
argument. The body then evaluates the two console.log template literals
(whose .length reads throw on a null receiver) and produces the value
meditationLogs.concat(malaMedLogs) that the source stores under the
given storage key; a thrown error anywhere rejects the whole call and
nothing is stored. -/
def storeMeditationLogs (primary secondary : Except JsError JsonVal) :
    Except JsError JsonVal := do
  let meditationLogs ← primary
  let malaMedLogs ← secondary
  let _ ← lengthAccess meditationLogs
  let _ ← lengthAccess malaMedLogs
  jsConcat meditationLogs malaMedLogs

/-- JSON string escaping for the characters that occur in the modelled
inputs: backslash and double quote (the rarer control-character escapes
are not modelled; no input of this development contains them). -/
def escapeChar (c : Char) : String :=
  if c = '\\' then "\\\\" else if c = '"' then "\\\"" else String.singleton c

/-- JSON.stringify escaping applied to the characters of a string. -/
def escapeString (s : String) : String := String.join (s.data.map escapeChar)

mutual

/-- JSON.stringify restricted to the values of JsonVal (every stored
value of the extension comes from JSON.parse, so undefined, functions
and non-integer numbers do not arise): null, booleans and integers
print canonically, strings print quoted and escaped, arrays and objects
print with brackets, braces, commas and colons and no added
whitespace. -/
def jsonStringify : JsonVal → String
  | .null => "null"
  | .bool true => "true"
  | .bool false => "false"
  | .num n => toString n
  | .str s => "\"" ++ escapeString s ++ "\""
  | .arr xs => "[" ++ stringifyElems xs ++ "]"
  | .obj fs => "\x7b" ++ stringifyFields fs ++ "\x7d"

/-- Comma-separated serialization of the elements of a JSON array. -/
def stringifyElems : List JsonVal → String
  | [] => ""
  | [v] => jsonStringify v
  | v :: vs => jsonStringify v ++ "," ++ stringifyElems vs

/-- Comma-separated serialization of the fields of a JSON object. -/
def stringifyFields : List (String × JsonVal) → String
  | [] => ""
  | [(k, v)] => "\"" ++ escapeString k ++ "\":" ++ jsonStringify v
  | (k, v) :: fs =>
      "\"" ++ escapeString k ++ "\":" ++ jsonStringify v ++ "," ++ stringifyFields fs

end

namespace Background

/-- Shallow embedding of handleMessages in background.js for the
download_stored_object command, as a map from the state stored under
message.storage_key (none when the key was never written) to the
content of the downloaded file (none when no download is triggered).
storage.local.get returns a wrapper object that omits an absent key;
storedObject[message.storage_key] is then undefined and the
meditationLogs.length template literal throws, so the catch handler
runs and no file is downloaded; the same happens for a stored null.
Otherwise the blob handed to browser.downloads.download holds
JSON.stringify(meditationLogs), the stored value alone. -/
def handleMessages (stored : Option JsonVal) : Option String :=
  match stored with
  | none => none
  | some v =>
    match lengthAccess v with
    | .error _ => none
    | .ok _ => some (jsonStringify v)

end Background

namespace BackgroundV1

/-- Shallow embedding of handleMessages in background-v1.js for the
download_stored_object command. The blob holds JSON.stringify of
itemsObject, the whole wrapper object returned by storage.local.get,
which is empty when the key is absent and otherwise binds the storage
key to the stored value; no property of the stored value is read, so
nothing throws and a file is always downloaded. -/
def handleMessages (key : String) (stored : Option JsonVal) : Option String :=
  match stored with
  | none => some (jsonStringify (.obj []))
  | some v => some (jsonStringify (.obj [(key, v)]))

end BackgroundV1

/-- An observable browser-API effect of one export run. -/
inductive Action : Type where
  | setStorage : String → JsonVal → Action
  | sendDownloadMessage : String → Action
  | reportError : Action
  | download : String → Action

/-- The effects of the background download handler given the file
content it computes: a download with that content, or the reportError
of the catch handler when the computation threw. -/
def downloadActions : Option String → List Action
  | none => [.reportError]
  | some content => [.download content]

/-- Shallow embedding of the onMessage listener of the content script for the
store_meditation_logs command. The source reads
storeMeditationLogs(storageKey).then(browser.runtime.sendMessage(..),
reportError): the first argument of the .then call is an ordinary call
expression, evaluated while setting up the .then, so the
download_stored_object message is dispatched before and regardless of
how the store promise settles; the promise that call returns is not a
function and is ignored as an onFulfilled handler, while reportError
runs when the store rejects. -/
def contentListener (primary secondary : Except JsError JsonVal) : List Action :=
  match storeMeditationLogs primary secondary with
  | .ok v => [.setStorage "meditation_logs" v, .sendDownloadMessage "meditation_logs"]
  | .error _ => [.sendDownloadMessage "meditation_logs", .reportError]

/-- One end-to-end export run against background.js: the content
listener fires, and the background handler then reacts to the
download_stored_object message over the extension storage, which held
prior under the meditation_logs key before the run and holds the merged
value instead when the store succeeded. -/
def runExport (prior : Option JsonVal) (primary secondary : Except JsError JsonVal) :
    List Action :=
  match storeMeditationLogs primary secondary with
  | .ok v =>
      [.setStorage "meditation_logs" v, .sendDownloadMessage "meditation_logs"]
        ++ downloadActions (Background.handleMessages (some v))
  | .error _ =>
      [.sendDownloadMessage "meditation_logs", .reportError]
        ++ downloadActions (Background.handleMessages prior)

/-- Modelled from the spec: the reserved bucket key for the Custom
course, chosen to coincide with the code the old schema carried for
that course. -/
def CUSTOM_KEY : String := "CUSTOM"

/-- Modelled from the spec: the reserved sentinel key for records whose
course shape is not recognized. -/
def UNRECOGNIZED_KEY : String := "__UNRECOGNIZED__"

/-- Modelled from the spec: the fallback of the category-key derivation
once no usable course.code exists — a course literally named Custom
(the documented schema-drift case) maps to the reserved constant,
anything else to the sentinel. -/
def courseNameFallback (course : JsonVal) : String :=
  match getField course "name" with
  | some (.str "Custom") => CUSTOM_KEY
  | _ => UNRECOGNIZED_KEY

/-- Modelled from the spec: the per-record category-key derivation of
the Bucketing Normalizer. MeditationLogs.bucket_entries is referenced
by the tergar-breaking-changes note but its code is not among the
repository sources, so the derivation follows the precedence
order: a present, non-empty course.code string is the key verbatim
(case preserved); otherwise a course named Custom yields CUSTOM_KEY;
every other shape (no course object, no usable code and a different or
missing name) yields UNRECOGNIZED_KEY. The derivation is a total
function: no shape makes it throw. -/
def categoryKey (record : JsonVal) : String :=
  match getField record "course" with
  | none => UNRECOGNIZED_KEY
  | some course =>
    match getField course "code" with
    | some (.str code) => if code = "" then courseNameFallback course else code
    | _ => courseNameFallback course

/-- Append record r to the bucket for key k, creating the bucket at the
end of the mapping on first use so that first-seen bucket order is
preserved. -/
def insertBucket (m : List (String × List JsonVal)) (k : String) (r : JsonVal) :
    List (String × List JsonVal) :=
  match m with
  | [] => [(k, [r])]
  | (k0, rs) :: rest =>
    if k0 = k then (k0, rs ++ [r]) :: rest else (k0, rs) :: insertBucket rest k r

/-- Modelled from the spec: one step of the single pass of
MeditationLogs.bucket_entries over the merged sequence. A record whose
derived key is the sentinel is quarantined into the unrecognized side
list and into no bucket (the reading fixed by the testable
properties 1 and 5: such a record appears once in the side list, in no
bucket, and bucket totals plus the side list account for every
record); every other record is appended to the bucket of its key. -/
def addRecord (acc : List (String × List JsonVal) × List JsonVal) (r : JsonVal) :
    List (String × List JsonVal) × List JsonVal :=
  if categoryKey r = UNRECOGNIZED_KEY then (acc.1, acc.2 ++ [r])
  else (insertBucket acc.1 (categoryKey r) r, acc.2)

/-- Modelled from the spec: MeditationLogs.bucket_entries, the single
pass of the Bucketing Normalizer over the merged sequence, producing
the mapping from category key to ordered bucket together with the
unrecognized side list. -/
def bucket_entries (rs : List JsonVal) :
    List (String × List JsonVal) × List JsonVal :=
  rs.foldl addRecord ([], [])

/-- Left fold that appends each record to the bucket of its key;
bucket_entries restricted to its bucket half. -/
def insertAll (m : List (String × List JsonVal)) (rs : List JsonVal) :
    List (String × List JsonVal) :=
  rs.foldl (fun m0 r => insertBucket m0 (categoryKey r) r) m

/-- The records of rs the normalizer recognizes (non-sentinel key). -/
def recognized (rs : List JsonVal) : List JsonVal :=
  rs.filter (fun r => categoryKey r ≠ UNRECOGNIZED_KEY)

/-- The bucket stored for key k, or the empty list when no bucket for k
exists. -/
def bucketOf (m : List (String × List JsonVal)) (k : String) : List JsonVal :=
  match m with
  | [] => []
  | (k0, rs) :: rest => if k0 = k then rs else bucketOf rest k

/-- The keys of ks not yet in seen, each kept at its first occurrence,
in order of first appearance. -/
def firstNew (seen ks : List String) : List String :=
  match ks with
  | [] => []
  | k :: ks0 =>
    if k ∈ seen then firstNew seen ks0 else k :: firstNew (seen ++ [k]) ks0

/-- Total number of records across all buckets of the mapping. -/
def bucketTotal (m : List (String × List JsonVal)) : Nat :=
  (m.map (fun kb => kb.2.length)).sum

/-- A course object has no non-empty string code field. -/
def noNonemptyStrCode (course : JsonVal) : Prop :=
  ∀ code : String, getField course "code" = some (.str code) → code = ""

/-- The old-schema Custom record documented by the
tergar-breaking-changes note (example from 2022-03-19). -/
def oldCustomRecord : JsonVal :=
  .obj [("id", .num 1699377), ("date", .num 1647648000000),
        ("dateString", .str "2022-03-19 00:00:00"), ("elapsed", .num 1800),
        ("feeling", .num 1), ("place", .num 1),
        ("notes", .str "TR - FB2 - Subtle Body 2.13"),
        ("course", .obj [("id", .num 6), ("active", .bool true),
           ("code", .str "CUSTOM"), ("description", .str "Custom Course"),
           ("is_mala_course", .bool false), ("name", .str "Custom")])]

/-- The new-schema Custom record documented by the
tergar-breaking-changes note (example from 2022-03-21): the course
object dropped its code field. -/
def newCustomRecord : JsonVal :=
  .obj [("id", .str "623253d1-ad90-4a72-add7-4fdb04e624aa"),
        ("date", .num 1647874609000), ("elapsed", .num 2267),
        ("notes", .str "TR - FB2 - Subtle Body 2.14 (Trauma)"),
        ("course", .obj [("id", .num 6), ("name", .str "Custom"),
           ("is_mala_course", .bool false)]),
        ("feeling", .str "HAPPY"), ("place", .str "HOME")]

/-- A record whose course has no code field and a name that is not
Custom: the unrecognized-shape case of the spec. -/
def unrecRecord : JsonVal :=
  .obj [("id", .num 7), ("date", .num 1647900000000),
        ("course", .obj [("id", .num 9),
           ("name", .str "SomeUnknownFutureType")])]

/-- A record for a non-Custom course that kept its code field. -/
def loaRecord : JsonVal :=
  .obj [("id", .num 8), ("date", .num 1647910000000),
        ("course", .obj [("id", .num 2), ("code", .str "LOA"),
           ("name", .str "Learning to Meditate")])]

/-- C1 (amended): the Record Merger is plain array concatenation — for
array-shaped inputs the output is exactly P followed by S, every record
passed through verbatim with all field values unmodified. -/
theorem storeMeditationLogs_is_plain_concat (P S : List JsonVal) :
    storeMeditationLogs (.ok (.arr P)) (.ok (.arr S)) = .ok (.arr (P ++ S)) := rfl

/-- C1 counterexample: merging a one-record primary with a one-record
secondary passes both records through unchanged, and neither output
record carries an isMalaRecord field at all — the primary record does
not carry isMalaRecord == false and the secondary record does not carry
isMalaRecord == true, refuting the claimed provenance stamping. -/
theorem storeMeditationLogs_no_isMalaRecord_stamp :
    storeMeditationLogs (.ok (.arr [.obj []])) (.ok (.arr [.obj [("x", .num 1)]]))
      = .ok (.arr [.obj [], .obj [("x", .num 1)]])
    ∧ getField (.obj []) "isMalaRecord" = none
    ∧ getField (.obj [("x", .num 1)]) "isMalaRecord" = none :=
  ⟨rfl, rfl, rfl⟩

/-- C5 counterexample: with an empty-array primary and the number 5 as
the secondary persisted value — a value that cannot be parsed into an
array of objects — the merge does not fail at all: it succeeds and
stores the number as a trailing element, and no MissingOrMalformedSource
error type exists anywhere in the sources. -/
theorem storeMeditationLogs_nonarray_no_failure :
    storeMeditationLogs (.ok (.arr [])) (.ok (.num 5)) = .ok (.arr [.num 5]) := rfl

/-- C5 (amended): if either persisted value is absent (JSON.parse of the
null getItem result yields the null value) or malformed (JSON.parse
throws), the merge operation throws a generic JS error before anything
is stored, so no partially merged output exists — but the error is a
plain TypeError or parse error, not a MissingOrMalformedSource value,
and a value that parses to a non-null non-array is not rejected. -/
theorem storeMeditationLogs_null_or_malformed_throws
    (p s : Except JsError JsonVal)
    (h : p = .ok .null ∨ s = .ok .null ∨ (∃ e, p = .error e) ∨ (∃ e, s = .error e)) :
    ∃ e, storeMeditationLogs p s = .error e := by
  rcases h with h | h | ⟨e, h⟩ | ⟨e, h⟩
  · subst h
    cases s with
    | error e => exact ⟨e, rfl⟩
    | ok w => exact ⟨.typeError "Cannot read properties of null", rfl⟩
  · subst h
    cases p with
    | error e => exact ⟨e, rfl⟩
    | ok v => cases v <;> exact ⟨_, rfl⟩
  · subst h; exact ⟨e, rfl⟩
  · subst h
    cases p with
    | error e2 => exact ⟨e2, rfl⟩
    | ok v => exact ⟨e, rfl⟩

/-- Witness for the amended C5 theorem at a concrete input: a null
primary with a well-formed empty-array secondary makes the merge
throw. -/
theorem storeMeditationLogs_null_or_malformed_throws_witness :
    ∃ e, storeMeditationLogs (.ok .null) (.ok (.arr [])) = .error e :=
  storeMeditationLogs_null_or_malformed_throws (.ok .null) (.ok (.arr []))
    (Or.inl rfl)

/-- C9: with an array primary and a non-null, non-array secondary the
merge does not fail: Array.prototype.concat appends the whole secondary
value as a single trailing element, so the stored sequence is one
longer than P and its last element is that value (not a LogRecord). -/
theorem storeMeditationLogs_nonarray_secondary_appended
    (P : List JsonVal) (v : JsonVal)
    (hnull : v ≠ .null) (harr : ∀ ys, v ≠ .arr ys) :
    storeMeditationLogs (.ok (.arr P)) (.ok v) = .ok (.arr (P ++ [v]))
    ∧ (P ++ [v]).length = P.length + 1
    ∧ (P ++ [v]).getLast? = some v := by
  refine ⟨?_, by simp, by simp⟩
  cases v with
  | null => exact absurd rfl hnull
  | arr ys => exact absurd rfl (harr ys)
  | bool b => rfl
  | num n => rfl
  | str s => rfl
  | obj fs => rfl

/-- Witness for the C9 theorem at a concrete input: an empty-array
primary and the number 5 as secondary. -/
theorem storeMeditationLogs_nonarray_secondary_appended_witness :
    storeMeditationLogs (.ok (.arr [])) (.ok (.num 5))
      = .ok (.arr ([] ++ [JsonVal.num 5]))
    ∧ (([] : List JsonVal) ++ [JsonVal.num 5]).length
      = ([] : List JsonVal).length + 1
    ∧ (([] : List JsonVal) ++ [JsonVal.num 5]).getLast? = some (.num 5) :=
  storeMeditationLogs_nonarray_secondary_appended [] (.num 5)
    (fun h => JsonVal.noConfusion h) (fun _ h => JsonVal.noConfusion h)

/-- Helper: a course whose name field is the string Custom falls back
to the CUSTOM key. -/
theorem courseNameFallback_custom (course : JsonVal)
    (h : getField course "name" = some (.str "Custom")) :
    courseNameFallback course = CUSTOM_KEY := by
  simp [courseNameFallback, h]

/-- Helper: a course whose name field is not the string Custom falls
back to the sentinel key. -/
theorem courseNameFallback_not_custom (course : JsonVal)
    (h : getField course "name" ≠ some (.str "Custom")) :
    courseNameFallback course = UNRECOGNIZED_KEY := by
  unfold courseNameFallback
  split
  · exact absurd (by assumption) h
  · rfl

/-- Helper: the category key of a record, expressed through the course
object it holds. -/
theorem categoryKey_eq (record course : JsonVal)
    (hcourse : getField record "course" = some course) :
    categoryKey record =
      match getField course "code" with
      | some (.str code) => if code = "" then courseNameFallback course else code
      | _ => courseNameFallback course := by
  unfold categoryKey
  rw [hcourse]

/-- C2: the category-key derivation follows the specified precedence
order: a present and non-empty course.code string is the key taken
verbatim; otherwise a course whose name is exactly the literal Custom
yields the reserved constant CUSTOM; otherwise the reserved sentinel
key is produced. -/
theorem categoryKey_precedence (record course : JsonVal)
    (hcourse : getField record "course" = some course) :
    (∀ code : String, getField course "code" = some (.str code) → code ≠ "" →
        categoryKey record = code)
    ∧ (noNonemptyStrCode course → getField course "name" = some (.str "Custom") →
        categoryKey record = CUSTOM_KEY)
    ∧ (noNonemptyStrCode course → getField course "name" ≠ some (.str "Custom") →
        categoryKey record = UNRECOGNIZED_KEY) := by
  refine ⟨?_, ?_, ?_⟩
  · intro code hcode hne
    rw [categoryKey_eq record course hcourse, hcode]
    simp [hne]
  · intro hnc hname
    rw [categoryKey_eq record course hcourse]
    cases hc : getField course "code" with
    | none => exact courseNameFallback_custom course hname
    | some v =>
      cases v with
      | str code =>
        have hce : code = "" := hnc code hc
        subst hce
        simpa using courseNameFallback_custom course hname
      | null => exact courseNameFallback_custom course hname
      | bool b => exact courseNameFallback_custom course hname
      | num n => exact courseNameFallback_custom course hname
      | arr xs => exact courseNameFallback_custom course hname
      | obj fs => exact courseNameFallback_custom course hname
  · intro hnc hname
    rw [categoryKey_eq record course hcourse]
    cases hc : getField course "code" with
    | none => exact courseNameFallback_not_custom course hname
    | some v =>
      cases v with
      | str code =>
        have hce : code = "" := hnc code hc
        subst hce
        simpa using courseNameFallback_not_custom course hname
      | null => exact courseNameFallback_not_custom course hname
      | bool b => exact courseNameFallback_not_custom course hname
      | num n => exact courseNameFallback_not_custom course hname
      | arr xs => exact courseNameFallback_not_custom course hname
      | obj fs => exact courseNameFallback_not_custom course hname

/-- Witness for the C2 theorem: a record whose course carries the
non-empty code LOA is assigned bucket key LOA. -/
theorem categoryKey_precedence_witness :
    categoryKey (.obj [("course", .obj [("code", .str "LOA")])]) = "LOA" :=
  (categoryKey_precedence (.obj [("course", .obj [("code", .str "LOA")])])
      (.obj [("code", .str "LOA")]) rfl).1 "LOA" rfl (by decide)

/-- Helper: JSON.stringify of the one-field wrapper object is longer
than JSON.stringify of the wrapped value by the quoted key and the
surrounding punctuation. -/
theorem jsonStringify_wrapper_length (k : String) (v : JsonVal) :
    (jsonStringify (.obj [(k, v)])).length
      = (jsonStringify v).length + (escapeString k).length + 5 := by
  have h1 : ("\x7b" : String).length = 1 := rfl
  have h2 : ("\x7d" : String).length = 1 := rfl
  have h3 : ("\"" : String).length = 1 := rfl
  have h4 : ("\":" : String).length = 2 := rfl
  rw [jsonStringify, stringifyFields]
  simp only [String.length_append, h1, h2, h3, h4]
  omega

/-- Helper: whenever background.js does export an artifact for a stored
value, that artifact differs from the background-v1.js artifact for the
same stored state, because the latter wraps the value in the object
keyed by the storage key and is strictly longer. -/
theorem handlers_differ_aux (key : String) (v : JsonVal)
    (hv : Background.handleMessages (some v) = some (jsonStringify v)) :
    Background.handleMessages (some v) ≠ BackgroundV1.handleMessages key (some v) := by
  rw [hv]
  intro h
  have h2 : jsonStringify v = jsonStringify (.obj [(key, v)]) := by
    simpa [BackgroundV1.handleMessages] using h
  have h3 := congrArg String.length h2
  rw [jsonStringify_wrapper_length] at h3
  omega

/-- C10: for every storage key and every stored state under it, the two
background download handlers export different artifacts: background.js
serializes only the stored value (and exports nothing when the key is
absent or the value is null), while background-v1.js serializes the
whole wrapper object returned by storage.local.get. -/
theorem background_handlers_not_equivalent (key : String) (stored : Option JsonVal) :
    Background.handleMessages stored ≠ BackgroundV1.handleMessages key stored := by
  cases stored with
  | none =>
    simp [Background.handleMessages, BackgroundV1.handleMessages]
  | some v =>
    cases v with
    | null => simp [Background.handleMessages, BackgroundV1.handleMessages, lengthAccess]
    | bool b => exact handlers_differ_aux key (.bool b) rfl
    | num n => exact handlers_differ_aux key (.num n) rfl
    | str s => exact handlers_differ_aux key (.str s) rfl
    | arr xs => exact handlers_differ_aux key (.arr xs) rfl
    | obj fs => exact handlers_differ_aux key (.obj fs) rfl

/-- Helper: inserting under k appends to the bucket of k. -/
theorem bucketOf_insertBucket_same (m : List (String × List JsonVal))
    (k : String) (r : JsonVal) :
    bucketOf (insertBucket m k r) k = bucketOf m k ++ [r] := by
  induction m with
  | nil => simp [insertBucket, bucketOf]
  | cons kb rest ih =>
    obtain ⟨k0, rs⟩ := kb
    by_cases h : k0 = k
    · subst h
      simp [insertBucket, bucketOf]
    · simp [insertBucket, bucketOf, h, ih]

/-- Helper: inserting under k1 leaves the bucket of any other key
unchanged. -/
theorem bucketOf_insertBucket_ne (m : List (String × List JsonVal))
    (k1 k : String) (r : JsonVal) (h : k1 ≠ k) :
    bucketOf (insertBucket m k1 r) k = bucketOf m k := by
  induction m with
  | nil => simp [insertBucket, bucketOf, h]
  | cons kb rest ih =>
    obtain ⟨k0, rs⟩ := kb
    by_cases h0 : k0 = k1
    · subst h0
      simp [insertBucket, bucketOf, h]
    · simp [insertBucket, bucketOf, h0, ih]

/-- Helper: inserting under k keeps the key list when a bucket for k
exists and otherwise appends k at the end. -/
theorem keys_insertBucket (m : List (String × List JsonVal))
    (k : String) (r : JsonVal) :
    (insertBucket m k r).map Prod.fst =
      if k ∈ m.map Prod.fst then m.map Prod.fst else m.map Prod.fst ++ [k] := by
  induction m with
  | nil => simp [insertBucket]
  | cons kb rest ih =>
    obtain ⟨k0, rs⟩ := kb
    by_cases h : k0 = k
    · subst h
      simp [insertBucket]
    · have hne : ¬ k = k0 := fun he => h he.symm
      by_cases hm : k ∈ rest.map Prod.fst
      · simp [insertBucket, h, ih, hm, hne]
      · simp [insertBucket, h, ih, hm, hne]

/-- Helper: inserting one record grows the total bucketed count by
one. -/
theorem bucketTotal_insertBucket (m : List (String × List JsonVal))
    (k : String) (r : JsonVal) :
    bucketTotal (insertBucket m k r) = bucketTotal m + 1 := by
  induction m with
  | nil => simp [insertBucket, bucketTotal]
  | cons kb rest ih =>
    obtain ⟨k0, rs⟩ := kb
    by_cases h : k0 = k
    · subst h
      simp [insertBucket, bucketTotal]
      omega
    · simp [insertBucket, bucketTotal, h] at ih ⊢
      omega

/-- Helper: in a mapping with distinct keys, membership determines the
bucket of a key. -/
theorem bucketOf_eq_of_mem :
    ∀ (m : List (String × List JsonVal)) (k : String) (b : List JsonVal),
      (m.map Prod.fst).Nodup → (k, b) ∈ m → bucketOf m k = b := by
  intro m
  induction m with
  | nil => intro k b _ hmem; cases hmem
  | cons kb rest ih =>
    intro k b hnd hmem
    obtain ⟨k0, rs⟩ := kb
    simp only [List.map_cons, List.nodup_cons] at hnd
    rcases List.mem_cons.mp hmem with heq | hmem0
    · injection heq with h1 h2
      subst h1
      subst h2
      simp [bucketOf]
    · have hk0 : ¬ k0 = k := by
        intro he
        subst he
        exact hnd.1 (List.mem_map.mpr ⟨(k0, b), hmem0, rfl⟩)
      simp only [bucketOf, if_neg hk0]
      exact ih k b hnd.2 hmem0

/-- Helper: the single pass of the normalizer splits into the bucket
fold over the recognized records and the filter that forms the
unrecognized side list. -/
theorem foldl_addRecord_split :
    ∀ (rs : List JsonVal) (m : List (String × List JsonVal)) (u : List JsonVal),
      rs.foldl addRecord (m, u)
        = (insertAll m (recognized rs),
           u ++ rs.filter (fun r => categoryKey r = UNRECOGNIZED_KEY)) := by
  intro rs
  induction rs with
  | nil => intro m u; simp [insertAll, recognized]
  | cons r rs ih =>
    intro m u
    by_cases h : categoryKey r = UNRECOGNIZED_KEY
    · have ha : addRecord (m, u) r = (m, u ++ [r]) := by simp [addRecord, h]
      rw [List.foldl_cons, ha, ih m (u ++ [r])]
      simp [recognized, List.filter_cons, h]
    · have ha : addRecord (m, u) r = (insertBucket m (categoryKey r) r, u) := by
        simp [addRecord, h]
      rw [List.foldl_cons, ha, ih (insertBucket m (categoryKey r) r) u]
      simp [recognized, insertAll, List.filter_cons, h]

/-- Helper: the bucket of k after the bucket fold is the old bucket of
k followed by the records of rs keyed k, in input order. -/
theorem bucketOf_insertAll :
    ∀ (rs : List JsonVal) (m : List (String × List JsonVal)) (k : String),
      bucketOf (insertAll m rs) k
        = bucketOf m k ++ rs.filter (fun r => categoryKey r = k) := by
  intro rs
  induction rs with
  | nil => intro m k; simp [insertAll]
  | cons r rs ih =>
    intro m k
    have hstep : insertAll m (r :: rs)
        = insertAll (insertBucket m (categoryKey r) r) rs := rfl
    rw [hstep, ih]
    by_cases h : categoryKey r = k
    · rw [h, bucketOf_insertBucket_same]
      simp [List.filter_cons, h]
    · rw [bucketOf_insertBucket_ne m (categoryKey r) k r h]
      simp [List.filter_cons, h]

/-- Helper: the key list after the bucket fold is the old key list
followed by the keys of rs not previously seen, in first-seen order. -/
theorem keys_insertAll :
    ∀ (rs : List JsonVal) (m : List (String × List JsonVal)),
      (insertAll m rs).map Prod.fst
        = m.map Prod.fst ++ firstNew (m.map Prod.fst) (rs.map categoryKey) := by
  intro rs
  induction rs with
  | nil => intro m; simp [insertAll, firstNew]
  | cons r rs ih =>
    intro m
    have hstep : insertAll m (r :: rs)
        = insertAll (insertBucket m (categoryKey r) r) rs := rfl
    rw [hstep, ih]
    rw [keys_insertBucket]
    by_cases h : categoryKey r ∈ m.map Prod.fst
    · simp only [if_pos h, List.map_cons, firstNew, if_pos h]
    · simp only [if_neg h, List.map_cons, firstNew, if_neg h]
      simp

/-- Helper: every key the fold introduces was the key of some record. -/
theorem mem_firstNew :
    ∀ (ks : List String) (seen : List String) (k : String),
      k ∈ firstNew seen ks → k ∈ ks := by
  intro ks
  induction ks with
  | nil => intro seen k h; simp [firstNew] at h
  | cons k0 ks ih =>
    intro seen k h
    by_cases h0 : k0 ∈ seen
    · simp only [firstNew, if_pos h0] at h
      exact List.mem_cons_of_mem k0 (ih seen k h)
    · simp only [firstNew, if_neg h0] at h
      rcases List.mem_cons.mp h with heq | hm
      · exact heq ▸ List.mem_cons_self k0 ks
      · exact List.mem_cons_of_mem k0 (ih (seen ++ [k0]) k hm)

/-- Helper: the bucket fold keeps the keys distinct. -/
theorem nodup_keys_insertAll :
    ∀ (rs : List JsonVal) (m : List (String × List JsonVal)),
      (m.map Prod.fst).Nodup → ((insertAll m rs).map Prod.fst).Nodup := by
  intro rs
  induction rs with
  | nil => intro m h; simpa [insertAll] using h
  | cons r rs ih =>
    intro m h
    have hstep : insertAll m (r :: rs)
        = insertAll (insertBucket m (categoryKey r) r) rs := rfl
    rw [hstep]
    apply ih
    rw [keys_insertBucket]
    by_cases hm : categoryKey r ∈ m.map Prod.fst
    · simpa [if_pos hm] using h
    · rw [if_neg hm]
      simp [List.nodup_append, h, hm]

/-- Helper: the bucket fold adds every folded record to some bucket:
totals grow by the number of records. -/
theorem bucketTotal_insertAll :
    ∀ (rs : List JsonVal) (m : List (String × List JsonVal)),
      bucketTotal (insertAll m rs) = bucketTotal m + rs.length := by
  intro rs
  induction rs with
  | nil => intro m; simp [insertAll]
  | cons r rs ih =>
    intro m
    have hstep : insertAll m (r :: rs)
        = insertAll (insertBucket m (categoryKey r) r) rs := rfl
    rw [hstep, ih, bucketTotal_insertBucket]
    simp
    omega

/-- Helper: for a non-sentinel key, filtering the recognized records by
that key is the same as filtering all records by it. -/
theorem recognized_filter_key (rs : List JsonVal) (k : String)
    (hk : k ≠ UNRECOGNIZED_KEY) :
    (recognized rs).filter (fun r => categoryKey r = k)
      = rs.filter (fun r => categoryKey r = k) := by
  rw [recognized, List.filter_filter]
  apply List.filter_congr
  intro a _
  by_cases h : categoryKey a = k
  · simp [h, hk]
  · simp [h]

/-- Helper: the bucket half of bucket_entries is the bucket fold over
the recognized records. -/
theorem bucket_entries_fst (rs : List JsonVal) :
    (bucket_entries rs).1 = insertAll [] (recognized rs) := by
  rw [bucket_entries, foldl_addRecord_split rs [] []]

/-- Helper: the side list of bucket_entries is exactly the unrecognized
records, in input order. -/
theorem bucket_entries_snd (rs : List JsonVal) :
    (bucket_entries rs).2 = rs.filter (fun r => categoryKey r = UNRECOGNIZED_KEY) := by
  rw [bucket_entries, foldl_addRecord_split rs [] []]
  simp

/-- Helper: a bucket present in the output is keyed by a non-sentinel
key and holds exactly the records of that key, in input order. -/
theorem mem_bucket_entries_char (rs : List JsonVal) (k : String) (b : List JsonVal)
    (hmem : (k, b) ∈ (bucket_entries rs).1) :
    k ≠ UNRECOGNIZED_KEY ∧ b = rs.filter (fun r => categoryKey r = k) := by
  rw [bucket_entries_fst] at hmem
  have hnd : ((insertAll [] (recognized rs)).map Prod.fst).Nodup :=
    nodup_keys_insertAll (recognized rs) [] (by simp)
  have hb : bucketOf (insertAll [] (recognized rs)) k = b :=
    bucketOf_eq_of_mem _ k b hnd hmem
  have hkmem : k ∈ (insertAll [] (recognized rs)).map Prod.fst :=
    List.mem_map.mpr ⟨(k, b), hmem, rfl⟩
  rw [keys_insertAll (recognized rs) []] at hkmem
  simp only [List.map_nil, List.nil_append] at hkmem
  have hkrec : k ∈ (recognized rs).map categoryKey :=
    mem_firstNew _ [] k hkmem
  obtain ⟨r, hrmem, hrk⟩ := List.mem_map.mp hkrec
  have hkne : k ≠ UNRECOGNIZED_KEY := by
    rw [← hrk]
    rw [recognized] at hrmem
    exact of_decide_eq_true (List.mem_filter.mp hrmem).2
  refine ⟨hkne, ?_⟩
  rw [← hb, bucketOf_insertAll (recognized rs) [] k]
  simp only [bucketOf, List.nil_append]
  exact recognized_filter_key rs k hkne

/-- Helper: the recognized and the unrecognized records together count
the whole input. -/
theorem length_filter_split (rs : List JsonVal) :
    (recognized rs).length
      + (rs.filter (fun r => categoryKey r = UNRECOGNIZED_KEY)).length
      = rs.length := by
  induction rs with
  | nil => rfl
  | cons r rs ih =>
    rw [recognized] at ih ⊢
    rw [List.filter_cons, List.filter_cons]
    by_cases h : categoryKey r = UNRECOGNIZED_KEY
    · rw [if_neg (by simp [h]), if_pos (by simp [h])]
      simp only [List.length_cons]
      omega
    · rw [if_pos (by simp [h]), if_neg (by simp [h])]
      simp only [List.length_cons]
      omega

/-- C8: within each bucket the records keep the relative order they had
in the merged sequence (every bucket equals an order-preserving filter
of the input by its key), and the buckets appear in the mapping in
first-seen order of their keys. -/
theorem bucket_entries_order (rs : List JsonVal) :
    (∀ k b, (k, b) ∈ (bucket_entries rs).1 →
        b = rs.filter (fun r => categoryKey r = k))
    ∧ (bucket_entries rs).1.map Prod.fst
        = firstNew [] ((recognized rs).map categoryKey) := by
  constructor
  · intro k b hmem
    exact (mem_bucket_entries_char rs k b hmem).2
  · rw [bucket_entries_fst, keys_insertAll]
    simp

/-- Witness for the C8 theorem at a concrete input: bucketing the two
documented Custom records around one LOA record keeps the two Custom
records in input order inside their shared bucket. -/
theorem bucket_entries_order_witness :
    [oldCustomRecord, newCustomRecord]
      = [oldCustomRecord, loaRecord, newCustomRecord].filter
          (fun r => categoryKey r = "CUSTOM") :=
  (bucket_entries_order [oldCustomRecord, loaRecord, newCustomRecord]).1
    "CUSTOM" [oldCustomRecord, newCustomRecord]
    (by
      rw [show (bucket_entries [oldCustomRecord, loaRecord, newCustomRecord]).1
            = [("CUSTOM", [oldCustomRecord, newCustomRecord]),
               ("LOA", [loaRecord])] from rfl]
      exact List.mem_cons_self _ _)

/-- C4: a record of unrecognized shape is never thrown on: the pass is
total, the record lands exactly once in the unrecognized side list
(occurring nowhere else in the input), it appears in no bucket, and
every recognized record of the rest of the input is still bucketed
under its key. -/
theorem bucket_entries_quarantine (pre post : List JsonVal) (r : JsonVal)
    (hkey : categoryKey r = UNRECOGNIZED_KEY)
    (hpre : r ∉ pre) (hpost : r ∉ post) :
    ((bucket_entries (pre ++ r :: post)).2
        = pre.filter (fun s => categoryKey s = UNRECOGNIZED_KEY)
          ++ r :: post.filter (fun s => categoryKey s = UNRECOGNIZED_KEY))
    ∧ r ∉ pre.filter (fun s => categoryKey s = UNRECOGNIZED_KEY)
    ∧ r ∉ post.filter (fun s => categoryKey s = UNRECOGNIZED_KEY)
    ∧ (∀ k b, (k, b) ∈ (bucket_entries (pre ++ r :: post)).1 → r ∉ b)
    ∧ (∀ s, s ∈ pre ++ post → categoryKey s ≠ UNRECOGNIZED_KEY →
        s ∈ bucketOf (bucket_entries (pre ++ r :: post)).1 (categoryKey s)) := by
  refine ⟨?_, ?_, ?_, ?_, ?_⟩
  · rw [bucket_entries_snd]
    simp [List.filter_append, List.filter_cons, hkey]
  · intro hmem
    exact hpre (List.mem_filter.mp hmem).1
  · intro hmem
    exact hpost (List.mem_filter.mp hmem).1
  · intro k b hmem hrb
    obtain ⟨hkne, hchar⟩ := mem_bucket_entries_char _ k b hmem
    rw [hchar] at hrb
    have hk2 : categoryKey r = k := of_decide_eq_true (List.mem_filter.mp hrb).2
    exact hkne (by rw [← hk2, hkey])
  · intro s hs hsrec
    rw [bucket_entries_fst, bucketOf_insertAll, recognized_filter_key _ _ hsrec]
    simp only [bucketOf, List.nil_append]
    refine List.mem_filter.mpr ⟨?_, by simp⟩
    rcases List.mem_append.mp hs with h | h
    · exact List.mem_append.mpr (Or.inl h)
    · exact List.mem_append.mpr (Or.inr (List.mem_cons_of_mem r h))

/-- Witness for the C4 theorem at the example given in the spec: the record
with course name SomeUnknownFutureType and no code, bucketed alone,
shows up exactly once in the side list. -/
theorem bucket_entries_quarantine_witness :
    (bucket_entries ([] ++ unrecRecord :: [])).2
      = List.filter (fun s => categoryKey s = UNRECOGNIZED_KEY) []
        ++ unrecRecord :: List.filter (fun s => categoryKey s = UNRECOGNIZED_KEY) [] :=
  (bucket_entries_quarantine [] [] unrecRecord rfl (by simp) (by simp)).1

/-- C7 counterexample: bucketing a one-record merged sequence holding
only an unrecognized record yields no bucket at all — the record is
quarantined into the side list — refuting that every input record
appears in exactly one output bucket. -/
theorem bucket_conservation_counterexample :
    (bucket_entries [unrecRecord]).1 = []
    ∧ (bucket_entries [unrecRecord]).2 = [unrecRecord] :=
  ⟨rfl, rfl⟩

/-- C7 (amended): the merged sequence is P followed by S and counts
count P + count S records; bucket totals plus the side-list length
conserve the merged length; bucket keys are distinct; every recognized
record lands in the bucket of its key; buckets hold only records of
their own key; and the side list is exactly the unrecognized records —
every record is accounted for exactly once, recognized ones in their
unique bucket, unrecognized ones in the side list (not in a bucket). -/
theorem bucket_conservation (P S : List JsonVal) :
    storeMeditationLogs (.ok (.arr P)) (.ok (.arr S)) = .ok (.arr (P ++ S))
    ∧ (P ++ S).length = P.length + S.length
    ∧ bucketTotal (bucket_entries (P ++ S)).1 + (bucket_entries (P ++ S)).2.length
        = (P ++ S).length
    ∧ ((bucket_entries (P ++ S)).1.map Prod.fst).Nodup
    ∧ (∀ r, r ∈ P ++ S → categoryKey r ≠ UNRECOGNIZED_KEY →
        r ∈ bucketOf (bucket_entries (P ++ S)).1 (categoryKey r))
    ∧ (∀ k b, (k, b) ∈ (bucket_entries (P ++ S)).1 →
        ∀ r, r ∈ b → categoryKey r = k)
    ∧ (bucket_entries (P ++ S)).2
        = (P ++ S).filter (fun r => categoryKey r = UNRECOGNIZED_KEY) := by
  refine ⟨rfl, by simp, ?_, ?_, ?_, ?_, bucket_entries_snd _⟩
  · rw [bucket_entries_fst, bucket_entries_snd, bucketTotal_insertAll]
    simp only [bucketTotal, List.map_nil, List.sum_nil, Nat.zero_add]
    exact length_filter_split (P ++ S)
  · rw [bucket_entries_fst]
    exact nodup_keys_insertAll _ [] (by simp)
  · intro r hr hrec
    rw [bucket_entries_fst, bucketOf_insertAll, recognized_filter_key _ _ hrec]
    simp only [bucketOf, List.nil_append]
    exact List.mem_filter.mpr ⟨hr, by simp⟩
  · intro k b hmem r hrb
    obtain ⟨hkne, hchar⟩ := mem_bucket_entries_char _ k b hmem
    rw [hchar] at hrb
    exact of_decide_eq_true (List.mem_filter.mp hrb).2

/-- Witness for the amended C7 theorem at a concrete input: one
recognized and one unrecognized record are conserved across buckets
and side list. -/
theorem bucket_conservation_witness :
    bucketTotal (bucket_entries ([oldCustomRecord] ++ [unrecRecord])).1
      + (bucket_entries ([oldCustomRecord] ++ [unrecRecord])).2.length
      = ([oldCustomRecord] ++ [unrecRecord]).length :=
  (bucket_conservation [oldCustomRecord] [unrecRecord]).2.2.1

/-- C3: the documented old-schema Custom record (course with code
"CUSTOM" and name "Custom") and the documented new-schema Custom record
(course with name "Custom" and no code field) derive the same bucket
key CUSTOM, and bucketing a sequence holding both lands them in one
shared bucket with no unrecognized records. -/
theorem custom_drift_same_bucket :
    categoryKey oldCustomRecord = CUSTOM_KEY
    ∧ categoryKey newCustomRecord = CUSTOM_KEY
    ∧ bucket_entries [oldCustomRecord, newCustomRecord]
        = ([(CUSTOM_KEY, [oldCustomRecord, newCustomRecord])], []) :=
  ⟨rfl, rfl, rfl⟩

/-- C6: evaluated at the failing input — primary persisted value null,
so the store rejects — the pipeline still dispatches the
download_stored_object message (the first argument of .then is an
eagerly evaluated call), and background.js downloads the stale value an
earlier run left in extension storage. -/
theorem runExport_fatal_still_downloads :
    runExport (some (.arr [.str "stale"])) (.ok .null) (.ok (.arr []))
      = [.sendDownloadMessage "meditation_logs", .reportError,
         .download "[\"stale\"]"] := rfl

end Tergar
